import Mathlib

/-!
Verification of the tabular preprocessing and cross-validated evaluation
pipeline of the hotel-booking cancellation notebook
(`Predicting Cancellation Rates/notebook.ipynb`).

The notebook configures and runs library components; the shallow embedding
below models those components exactly as the notebook configures them:

* `KFold(n_splits=4, shuffle=True, random_state=1234)` — a k-fold splitter
  over row indices, seeded and deterministic (`kfoldSplit`);
* `SimpleImputer(strategy="constant")` on numeric columns — constant fill
  value `0` for missing numeric entries (`fillNum`);
* `Pipeline(SimpleImputer(strategy="constant", fill_value="Unknown"),
  OneHotEncoder(handle_unknown='ignore'))` on categorical columns —
  missing entries become the token `"Unknown"`, then indicator encoding
  against the categories recorded at fit time, with unseen categories
  mapped to an all-zero indicator block (`fillCat`, `oneHot`,
  `fitPreprocessor`, `transformRow`);
* `cross_val_score(pipeline, X, y, cv=split, scoring="accuracy")` — per
  fold: fit the preprocessor and a fresh classifier on the training rows
  only, transform and score the validation rows (`evalFold`,
  `crossValScore`);
* the reporting cell — `round(np.min/np.max/np.mean/np.std(cv_results), 4)`
  (`cvReport`), with 4-decimal round-half-to-even rounding (`roundQ4`,
  `roundR4`) and population (ddof = 0) standard deviation (`npStd`).

Machine floats are modelled by exact rationals (reals where a square root
occurs); classifiers are opaque fit/predict capabilities.
-/

/-! ### Splitter (KFold) -/

/-- A single cross-validation fold: the training row indices and the
validation row indices. -/
structure Fold where
  train : List Nat
  valid : List Nat
deriving DecidableEq, Repr

/-- Configuration errors of the splitter: the fold count is out of range. -/
inductive ConfigError where
  | invalidK : ConfigError
deriving DecidableEq, Repr

/-- Modelled from the spec: a 64-bit linear congruential step, the seeded
pseudo-random source used by the shuffling splitter (the library's seeded
permutation is external code; the spec only requires an explicit, injectable
seeded pseudo-random source). -/
def lcgStep (x : Nat) : Nat :=
  (x * 6364136223846793005 + 1442695040888963407) % (2 ^ 64)

/-- Pseudo-random sort key of row index `i` under `seed`. -/
def shuffleKey (seed i : Nat) : Nat :=
  lcgStep (lcgStep (seed + 1) + i)

/-- Modelled from the spec: the seeded pseudo-random permutation applied to
the row indices when `shuffle` is true — indices are reordered by their
pseudo-random keys (ties broken by index, so the reordering is total). -/
def permuteIndices (seed : Nat) (l : List Nat) : List Nat :=
  l.mergeSort (fun i j =>
    shuffleKey seed i < shuffleKey seed j ∨
      (shuffleKey seed i = shuffleKey seed j ∧ i ≤ j))

/-- Validation-group sizes used by the splitter: `n % k` groups of size
`n / k + 1` first, then groups of size `n / k` (the library's sizing of the
`k` contiguous groups). -/
def foldSizes (n k : Nat) : List Nat :=
  (List.range k).map (fun i => n / k + if i < n % k then 1 else 0)

/-- Turns the (possibly permuted) index sequence into folds: each size in
turn carves one validation group off the front of the remaining sequence
`l`; that fold's training indices are all other indices (`pre`, the groups
already carved off, plus the rest of `l`). -/
def foldsAux : List Nat → List Nat → List Nat → List Fold
  | [], _, _ => []
  | s :: ss, pre, l =>
      { train := pre ++ l.drop s, valid := l.take s } ::
        foldsAux ss (pre ++ l.take s) (l.drop s)

/-- Modelled from the spec: `split(num_rows, k, shuffle, seed)`. Fails with
`ConfigError` when `k < 2` or `k > num_rows`; otherwise permutes the row
indices when `shuffle` is set and partitions them into `k` contiguous
validation groups, each paired with the remaining indices as its training
set (the notebook configures `n_splits=4, shuffle=True, random_state=1234`). -/
def kfoldSplit (numRows k : Nat) (shuffle : Bool) (seed : Nat) :
    Except ConfigError (List Fold) :=
  if k < 2 ∨ numRows < k then .error .invalidK
  else
    let idx := if shuffle then permuteIndices seed (List.range numRows)
               else List.range numRows
    .ok (foldsAux (foldSizes numRows k) [] idx)

example :
    kfoldSplit 5 2 false 0 =
      .ok [⟨[3, 4], [0, 1, 2]⟩, ⟨[0, 1, 2], [3, 4]⟩] := by rfl

example : kfoldSplit 5 1 true 7 = .error .invalidK := by rfl

example : kfoldSplit 5 6 false 7 = .error .invalidK := by rfl

/-! ### Partition properties of the splitter -/

theorem foldsAux_length (ss pre l : List Nat) :
    (foldsAux ss pre l).length = ss.length := by
  induction ss generalizing pre l with
  | nil => rfl
  | cons s ss ih => simp [foldsAux, ih]

theorem sum_map_range_add_ite (c m k : Nat) :
    ((List.range k).map (fun i => c + if i < m then 1 else 0)).sum
      = k * c + min m k := by
  induction k with
  | zero => simp
  | succ k ih =>
      rw [List.range_succ, List.map_append, List.sum_append]
      simp only [List.map_cons, List.map_nil, List.sum_cons, List.sum_nil, ih]
      rcases Nat.lt_or_ge k m with h | h
      · have h1 : min m k = k := Nat.min_eq_right (Nat.le_of_lt h)
        have h2 : min m (k + 1) = k + 1 := Nat.min_eq_right h
        simp [h, h1, h2, Nat.succ_mul]; omega
      · have h1 : min m k = m := Nat.min_eq_left h
        have h2 : min m (k + 1) = m := Nat.min_eq_left (Nat.le_succ_of_le h)
        have h3 : ¬ k < m := Nat.not_lt.mpr h
        simp [h3, h1, h2, Nat.succ_mul]; omega

theorem foldSizes_sum (n k : Nat) (hk : 0 < k) : (foldSizes n k).sum = n := by
  have hmod : n % k < k := Nat.mod_lt n hk
  rw [foldSizes, sum_map_range_add_ite, Nat.min_eq_left (Nat.le_of_lt hmod)]
  exact Nat.div_add_mod n k

theorem foldsAux_mem_perm (ss : List Nat) :
    ∀ pre l f, f ∈ foldsAux ss pre l → (f.train ++ f.valid).Perm (pre ++ l) := by
  induction ss with
  | nil => intro pre l f hf; simp [foldsAux] at hf
  | cons s ss ih =>
      intro pre l f hf
      rw [foldsAux, List.mem_cons] at hf
      rcases hf with hf | hf
      · subst hf
        rw [List.append_assoc]
        have h2 : (l.drop s ++ l.take s).Perm (l.take s ++ l.drop s) :=
          List.perm_append_comm
        have h3 := h2.append_left pre
        rwa [List.take_append_drop] at h3
      · have h := ih (pre ++ l.take s) (l.drop s) f hf
        rwa [List.append_assoc, List.take_append_drop] at h

theorem foldsAux_countP_valid (x : Nat) (ss : List Nat) :
    ∀ pre l : List Nat, l.Nodup →
      (foldsAux ss pre l).countP (fun f => decide (x ∈ f.valid))
        = if x ∈ l.take ss.sum then 1 else 0 := by
  induction ss with
  | nil => intro pre l _; simp [foldsAux]
  | cons s ss ih =>
      intro pre l hnd
      have hndd : (l.drop s).Nodup := hnd.sublist (List.drop_sublist s l)
      have hdisj : List.Disjoint (l.take s) (l.drop s) := by
        have := hnd
        rw [← List.take_append_drop s l, List.nodup_append] at this
        exact this.2.2
      rw [foldsAux, List.countP_cons, ih (pre ++ l.take s) (l.drop s) hndd]
      have htake : l.take (s :: ss).sum = l.take s ++ (l.drop s).take ss.sum := by
        rw [List.sum_cons, List.take_add]
      rw [htake]
      by_cases h1 : x ∈ l.take s
      · have h2 : x ∉ (l.drop s).take ss.sum := fun hmem =>
          hdisj h1 (List.take_subset _ _ hmem)
        simp [h1, h2]
      · by_cases h2 : x ∈ (l.drop s).take ss.sum
        · simp [h1, h2]
        · simp [h1, h2]

theorem countP_add_countP_compl {α : Type} (l : List α) (p q : α → Bool)
    (h : ∀ a ∈ l, p a = true ↔ ¬ q a = true) :
    l.countP p + l.countP q = l.length := by
  induction l with
  | nil => simp
  | cons a l ih =>
      rw [List.countP_cons, List.countP_cons]
      have hih := ih (fun b hb => h b (List.mem_cons_of_mem a hb))
      by_cases hp : p a = true
      · have hq : ¬ q a = true := (h a (List.mem_cons_self a l)).mp hp
        simp [hp, hq]; omega
      · have hq : q a = true := by
          by_contra hq
          exact hp ((h a (List.mem_cons_self a l)).mpr hq)
        simp [hp, hq]; omega

theorem foldsAux_partition (n k : Nat) (hk : 0 < k) (l : List Nat)
    (hperm : l.Perm (List.range n)) :
    (foldsAux (foldSizes n k) [] l).length = k ∧
    (∀ x, x < n →
      (foldsAux (foldSizes n k) [] l).countP (fun f => decide (x ∈ f.valid)) = 1 ∧
      (foldsAux (foldSizes n k) [] l).countP (fun f => decide (x ∈ f.train)) = k - 1) ∧
    (∀ f ∈ foldsAux (foldSizes n k) [] l,
      (∀ x ∈ f.train, x < n) ∧ (∀ x ∈ f.valid, x < n) ∧
      ∀ x, ¬(x ∈ f.train ∧ x ∈ f.valid)) := by
  have hnodup : l.Nodup := hperm.symm.nodup (List.nodup_range n)
  have hlen : l.length = n := hperm.length_eq.trans (List.length_range n)
  have hklen : (foldsAux (foldSizes n k) [] l).length = k := by
    rw [foldsAux_length]; simp [foldSizes]
  have hmemf : ∀ f ∈ foldsAux (foldSizes n k) [] l,
      (f.train ++ f.valid).Perm l := by
    intro f hf
    have h := foldsAux_mem_perm (foldSizes n k) [] l f hf
    rwa [List.nil_append] at h
  have hvalid1 : ∀ x, x < n →
      (foldsAux (foldSizes n k) [] l).countP (fun f => decide (x ∈ f.valid)) = 1 := by
    intro x hx
    rw [foldsAux_countP_valid x (foldSizes n k) [] l hnodup, foldSizes_sum n k hk,
      ← hlen, List.take_length]
    have hxl : x ∈ l := hperm.mem_iff.mpr (List.mem_range.mpr hx)
    simp [hxl]
  refine ⟨hklen, fun x hx => ⟨hvalid1 x hx, ?_⟩, fun f hf => ?_⟩
  · have hcompl : ∀ f ∈ foldsAux (foldSizes n k) [] l,
        decide (x ∈ f.train) = true ↔ ¬ decide (x ∈ f.valid) = true := by
      intro f hf
      have hp := hmemf f hf
      have hnd : (f.train ++ f.valid).Nodup := hp.symm.nodup hnodup
      rw [List.nodup_append] at hnd
      have hx2 : x ∈ f.train ++ f.valid :=
        hp.mem_iff.mpr (hperm.mem_iff.mpr (List.mem_range.mpr hx))
      rw [List.mem_append] at hx2
      simp only [decide_eq_true_eq]
      constructor
      · intro ht hv; exact hnd.2.2 ht hv
      · intro hv; exact hx2.resolve_right hv
    have := countP_add_countP_compl (foldsAux (foldSizes n k) [] l)
      (fun f => decide (x ∈ f.train)) (fun f => decide (x ∈ f.valid)) hcompl
    rw [hvalid1 x hx, hklen] at this
    omega
  · have hp := hmemf f hf
    have hnd : (f.train ++ f.valid).Nodup := hp.symm.nodup hnodup
    rw [List.nodup_append] at hnd
    have hbound : ∀ x ∈ f.train ++ f.valid, x < n := by
      intro x hx
      exact List.mem_range.mp (hperm.mem_iff.mp (hp.mem_iff.mp hx))
    exact ⟨fun x hx => hbound x (List.mem_append.mpr (Or.inl hx)),
      fun x hx => hbound x (List.mem_append.mpr (Or.inr hx)),
      fun x hx => hnd.2.2 hx.1 hx.2⟩

/-- **C2**: every configuration the splitter accepts yields exactly `k`
folds that partition the row-index range: each row index `x < numRows` lies
in the validation set of exactly one fold and in the training set of
exactly `k - 1` folds, every index occurring in a fold is a genuine row
index, and each fold's training and validation index sets are disjoint. -/
theorem kfold_split_partition (numRows k : Nat) (shuffle : Bool) (seed : Nat)
    (folds : List Fold) (hok : kfoldSplit numRows k shuffle seed = .ok folds) :
    folds.length = k ∧
    (∀ x, x < numRows →
      folds.countP (fun f => decide (x ∈ f.valid)) = 1 ∧
      folds.countP (fun f => decide (x ∈ f.train)) = k - 1) ∧
    (∀ f ∈ folds,
      (∀ x ∈ f.train, x < numRows) ∧ (∀ x ∈ f.valid, x < numRows) ∧
      ∀ x, ¬(x ∈ f.train ∧ x ∈ f.valid)) := by
  have hcond : ¬ (k < 2 ∨ numRows < k) := by
    intro hc
    rw [kfoldSplit, if_pos hc] at hok
    exact Except.noConfusion hok
  rw [kfoldSplit, if_neg hcond] at hok
  simp only [Except.ok.injEq] at hok
  have hk : 0 < k := by omega
  rcases shuffle with _ | _
  · simp only [if_neg Bool.false_ne_true] at hok
    rw [← hok]
    exact foldsAux_partition numRows k hk (List.range numRows) (List.Perm.refl _)
  · simp only [if_pos rfl] at hok
    rw [← hok]
    exact foldsAux_partition numRows k hk _ (List.mergeSort_perm _ _)

/-- Witness for `kfold_split_partition` at the concrete configuration
`numRows = 5`, `k = 2`, no shuffling, seed 0. -/
theorem kfold_split_partition_witness :
    ([⟨[3, 4], [0, 1, 2]⟩, ⟨[0, 1, 2], [3, 4]⟩] : List Fold).length = 2 ∧
    (∀ x, x < 5 →
      ([⟨[3, 4], [0, 1, 2]⟩, ⟨[0, 1, 2], [3, 4]⟩] : List Fold).countP
        (fun f => decide (x ∈ f.valid)) = 1 ∧
      ([⟨[3, 4], [0, 1, 2]⟩, ⟨[0, 1, 2], [3, 4]⟩] : List Fold).countP
        (fun f => decide (x ∈ f.train)) = 2 - 1) ∧
    (∀ f ∈ ([⟨[3, 4], [0, 1, 2]⟩, ⟨[0, 1, 2], [3, 4]⟩] : List Fold),
      (∀ x ∈ f.train, x < 5) ∧ (∀ x ∈ f.valid, x < 5) ∧
      ∀ x, ¬(x ∈ f.train ∧ x ∈ f.valid)) :=
  kfold_split_partition 5 2 false 0 _ (by rfl)

/-! ### Column preprocessor (constant imputers + one-hot encoder) -/

/-- One dataset row restricted to the schema's feature columns: the raw
numeric cells (in the order of `features_num`) and the raw categorical
cells (in the order of `features_cat`); `none` is the missing marker. -/
structure Row where
  nums : List (Option ℚ)
  cats : List (Option String)
deriving DecidableEq, Repr

/-- Modelled from the spec: `SimpleImputer(strategy="constant")` on a
numeric cell — a missing entry becomes the constant fill value `0` (the
library's default constant for numeric data), any other entry passes
through unchanged. -/
def fillNum (v : Option ℚ) : ℚ := v.getD 0

/-- Modelled from the spec: `SimpleImputer(strategy="constant",
fill_value="Unknown")` on a categorical cell — a missing entry becomes the
token `"Unknown"`, any other entry passes through unchanged. -/
def fillCat (v : Option String) : String := v.getD "Unknown"

/-- The (imputed) categorical value of row `r` at categorical column `j`. -/
def colCat (r : Row) (j : Nat) : String := fillCat (r.cats.getD j none)

/-- The state recorded when the preprocessor is fitted: per categorical
column, the list of distinct category values observed in the fitting rows
(after imputation), each holding one fixed indicator position. -/
structure FittedPreprocessor where
  catCategories : List (List String)
deriving DecidableEq, Repr

/-- Modelled from the spec: fitting the column preprocessor on a row set.
The numeric side records nothing (the constant fill is fixed); the
categorical side records, for each of the `nCats` categorical columns, the
distinct observed (imputed) values. -/
def fitPreprocessor (nCats : Nat) (rows : List Row) : FittedPreprocessor :=
  ⟨(List.range nCats).map (fun j => (rows.map (fun r => colCat r j)).dedup)⟩

/-- Modelled from the spec: `OneHotEncoder(handle_unknown='ignore')` on one
cell — the indicator vector over the fitted categories: `1` exactly at the
positions whose category equals the value, and all zeros when the value
matches no fitted category. -/
def oneHot (cats : List String) (v : String) : List ℚ :=
  cats.map (fun c => if c = v then 1 else 0)

/-- The per-categorical-column indicator blocks of a transformed row. -/
def catBlocks (fp : FittedPreprocessor) (r : Row) : List (List ℚ) :=
  (fp.catCategories.zip r.cats).map (fun p => oneHot p.1 (fillCat p.2))

/-- Modelled from the spec: `transform` of a fitted preprocessor on one
row — the imputed numeric cells followed by the concatenated indicator
blocks of the categorical cells. Total by construction: it is defined for
every row and every fitted state. -/
def transformRow (fp : FittedPreprocessor) (r : Row) : List ℚ :=
  r.nums.map fillNum ++ (catBlocks fp r).flatten

example :
    transformRow (fitPreprocessor 1 [⟨[some 3], [some "A"]⟩, ⟨[none], [some "B"]⟩])
      ⟨[none], [some "C"]⟩ = [0, 0, 0] := by rfl

example :
    transformRow (fitPreprocessor 1 [⟨[some 3], [some "A"]⟩, ⟨[none], [some "B"]⟩])
      ⟨[some 5], [some "B"]⟩ = [5, 0, 1] := by rfl

theorem oneHot_of_not_mem (cats : List String) (v : String) (h : v ∉ cats) :
    oneHot cats v = List.replicate cats.length 0 := by
  induction cats with
  | nil => rfl
  | cons c cats ih =>
      have hne : c ≠ v := fun hc => h (hc ▸ List.mem_cons_self c cats)
      rw [oneHot, List.map_cons, List.length_cons, List.replicate_succ]
      rw [if_neg hne]
      exact congrArg _ (ih (fun hv => h (List.mem_cons_of_mem c hv)))

theorem catBlocks_getD (fp : FittedPreprocessor) (r : Row) (j : Nat)
    (hj : j < fp.catCategories.length) (hj2 : j < r.cats.length) :
    (catBlocks fp r).getD j []
      = oneHot (fp.catCategories.getD j []) (fillCat (r.cats.getD j none)) := by
  have hlen : j < (fp.catCategories.zip r.cats).length := by
    rw [List.length_zip]; omega
  have hblen : j < (catBlocks fp r).length := by
    rw [catBlocks, List.length_map]; exact hlen
  rw [List.getD_eq_getElem _ _ hblen, List.getD_eq_getElem _ _ hj,
    List.getD_eq_getElem _ _ hj2]
  simp [catBlocks, List.getElem_zip]

/-- **C3**: `transform` never fails — it is total by construction, its
output always being the imputed numeric cells followed by the concatenated
indicator blocks — and whenever the (imputed) categorical value of a column
matches no category recorded at fit time (including the `"Unknown"` fill
token when it was never observed during fit), that column's indicator block
is all zeros. -/
theorem transform_unseen_category_all_zero (fp : FittedPreprocessor) (r : Row)
    (j : Nat) (hj : j < fp.catCategories.length) (hj2 : j < r.cats.length)
    (hunseen : fillCat (r.cats.getD j none) ∉ fp.catCategories.getD j []) :
    (catBlocks fp r).getD j []
        = List.replicate (fp.catCategories.getD j []).length 0 ∧
    transformRow fp r = r.nums.map fillNum ++ (catBlocks fp r).flatten :=
  ⟨by rw [catBlocks_getD fp r j hj hj2, oneHot_of_not_mem _ _ hunseen], rfl⟩

/-- Witness for `transform_unseen_category_all_zero`: fitting on categories
`{"A", "B"}` and transforming the unseen category `"C"` yields the all-zero
indicator block. -/
theorem transform_unseen_category_all_zero_witness :
    (catBlocks (fitPreprocessor 1 [⟨[], [some "A"]⟩, ⟨[], [some "B"]⟩])
        ⟨[], [some "C"]⟩).getD 0 []
      = List.replicate
          ((fitPreprocessor 1 [⟨[], [some "A"]⟩, ⟨[], [some "B"]⟩]).catCategories.getD
            0 []).length 0 ∧
    transformRow (fitPreprocessor 1 [⟨[], [some "A"]⟩, ⟨[], [some "B"]⟩])
        ⟨[], [some "C"]⟩
      = (Row.mk [] [some "C"]).nums.map fillNum ++
          (catBlocks (fitPreprocessor 1 [⟨[], [some "A"]⟩, ⟨[], [some "B"]⟩])
            ⟨[], [some "C"]⟩).flatten :=
  transform_unseen_category_all_zero
    (fitPreprocessor 1 [⟨[], [some "A"]⟩, ⟨[], [some "B"]⟩]) ⟨[], [some "C"]⟩ 0
    (by decide) (by decide) (by decide)

/-- **C6**: the transformed row carries the imputed values — at numeric
position `i` the output is the constant fill `0` when the raw cell is
missing and the raw value itself otherwise, and the indicator block of
categorical column `j` is the one-hot encoding of the raw value with a
missing cell replaced by the token `"Unknown"` before encoding. -/
theorem transform_imputes_fill_values (fp : FittedPreprocessor) (r : Row)
    (i : Nat) (hi : i < r.nums.length)
    (j : Nat) (hj : j < fp.catCategories.length) (hj2 : j < r.cats.length) :
    (transformRow fp r).getD i 0
      = (match r.nums.getD i none with | none => 0 | some q => q) ∧
    (catBlocks fp r).getD j []
      = oneHot (fp.catCategories.getD j [])
          (match r.cats.getD j none with | none => "Unknown" | some s => s) := by
  constructor
  · have hmap : i < (r.nums.map fillNum).length := by rw [List.length_map]; exact hi
    rw [transformRow, List.getD_append]
    · rw [List.getD_eq_getElem _ _ hmap, List.getD_eq_getElem _ _ hi,
        List.getElem_map]
      cases hq : r.nums[i] <;> simp [fillNum, hq]
    · exact hmap
  · rw [catBlocks_getD fp r j hj hj2]
    cases hq : r.cats.getD j none <;> simp [fillCat, hq]

/-- Witness for `transform_imputes_fill_values`: a fitted preprocessor on
one training row, applied to a row whose numeric and categorical cells are
both missing. -/
theorem transform_imputes_fill_values_witness :
    (transformRow (fitPreprocessor 1 [⟨[some 1], [some "A"]⟩])
        ⟨[none], [none]⟩).getD 0 0
      = (match (Row.mk [none] [none]).nums.getD 0 none with
          | none => 0 | some q => q) ∧
    (catBlocks (fitPreprocessor 1 [⟨[some 1], [some "A"]⟩])
        ⟨[none], [none]⟩).getD 0 []
      = oneHot ((fitPreprocessor 1 [⟨[some 1], [some "A"]⟩]).catCategories.getD 0 [])
          (match (Row.mk [none] [none]).cats.getD 0 none with
            | none => "Unknown" | some s => s) :=
  transform_imputes_fill_values (fitPreprocessor 1 [⟨[some 1], [some "A"]⟩])
    ⟨[none], [none]⟩ 0 (by decide) 0 (by decide) (by decide)

/-! ### Evaluator and driver (cross_val_score over the model list) -/

/-- The rows of `l` at the positions named by `idx` (out-of-range positions
contribute nothing). -/
def select {α : Type} (l : List α) (idx : List Nat) : List α :=
  idx.filterMap (fun i => l[i]?)

/-- An opaque classifier capability: from a training feature matrix and the
training labels, produce a prediction function (the notebook's tree and
forest models are two instances; a fresh instance is fitted per fold). -/
structure Classifier where
  fitPredict : List (List ℚ) → List ℚ → (List ℚ → ℚ)

/-- Modelled from the spec: `accuracy_score` — the mean of the per-position
indicator of predicted label equalling true label. -/
def accuracy (preds truth : List ℚ) : ℚ :=
  ((preds.zip truth).map (fun p => if p.1 = p.2 then (1 : ℚ) else 0)).sum
    / truth.length

/-- The preprocessor state the evaluator fits for a fold: fitted on the
fold's training rows only. -/
def foldPreprocessor (nCats : Nat) (rows : List Row) (f : Fold) :
    FittedPreprocessor :=
  fitPreprocessor nCats (select rows f.train)

/-- Modelled from the spec: one fold of `cross_val_score` on the notebook's
pipeline — fit the preprocessor on the fold's training rows, fit a fresh
classifier on the transformed training rows, then score the validation rows
transformed through the same (unrefitted) preprocessor state. -/
def evalFold (clf : Classifier) (nCats : Nat) (rows : List Row)
    (labels : List ℚ) (f : Fold) : ℚ :=
  let fp := foldPreprocessor nCats rows f
  let predict := clf.fitPredict ((select rows f.train).map (transformRow fp))
    (select labels f.train)
  accuracy ((select rows f.valid).map (fun r => predict (transformRow fp r)))
    (select labels f.valid)

/-- Modelled from the spec: `cross_val_score` — the per-fold accuracy
sequence, one value per fold in fold order. -/
def crossValScore (clf : Classifier) (nCats : Nat) (rows : List Row)
    (labels : List ℚ) (folds : List Fold) : List ℚ :=
  folds.map (evalFold clf nCats rows labels)

/-- One driver iteration for one named model: `cross_val_score` with the
shared splitter configuration (the notebook passes the one `KFold` object,
whose configuration is re-evaluated identically inside each call). -/
def evalClassifier (clf : Classifier) (nCats : Nat) (rows : List Row)
    (labels : List ℚ) (numRows k : Nat) (shuffle : Bool) (seed : Nat) :
    List ℚ :=
  match kfoldSplit numRows k shuffle seed with
  | .ok folds => crossValScore clf nCats rows labels folds
  | .error _ => []

/-- The driver loop of the notebook's final cell: evaluate every named
classifier, in the given order, against the shared splitter
configuration. -/
def driverRun (clfs : List (String × Classifier)) (nCats : Nat)
    (rows : List Row) (labels : List ℚ) (numRows k : Nat) (shuffle : Bool)
    (seed : Nat) : List (String × List ℚ) :=
  clfs.map (fun p =>
    (p.1, evalClassifier p.2 nCats rows labels numRows k shuffle seed))

theorem select_congr {α : Type} (l l2 : List α) (idx : List Nat)
    (h : ∀ i ∈ idx, l[i]? = l2[i]?) : select l idx = select l2 idx := by
  induction idx with
  | nil => rfl
  | cons i idx ih =>
      have hrest := ih (fun j hj => h j (List.mem_cons_of_mem i hj))
      simp only [select, List.filterMap_cons] at hrest ⊢
      rw [h i (List.mem_cons_self i idx), hrest]

/-- **C1**: per fold, the preprocessor state the evaluator uses is fitted on
that fold's training rows only — it is invariant under arbitrary changes of
the dataset outside the training indices (in particular changes of the
validation rows, or of rows outside the fold), and `evalFold` applies this
one fitted state, without refitting, to the training matrix and to the
validation matrix alike. -/
theorem fold_preprocessor_fitted_on_train_only (clf : Classifier)
    (nCats : Nat) (rows rows2 : List Row) (labels : List ℚ) (f : Fold)
    (h : ∀ i ∈ f.train, rows[i]? = rows2[i]?) :
    foldPreprocessor nCats rows f = foldPreprocessor nCats rows2 f ∧
    evalFold clf nCats rows labels f =
      accuracy
        ((select rows f.valid).map (fun r =>
          clf.fitPredict
            ((select rows f.train).map
              (transformRow (foldPreprocessor nCats rows f)))
            (select labels f.train)
            (transformRow (foldPreprocessor nCats rows f) r)))
        (select labels f.valid) := by
  refine ⟨?_, rfl⟩
  rw [foldPreprocessor, foldPreprocessor, select_congr rows rows2 f.train h]

/-- Witness for `fold_preprocessor_fitted_on_train_only`: two datasets that
agree on the training index `0` but differ on the validation index `1`
yield the same fitted state. -/
theorem fold_preprocessor_fitted_on_train_only_witness :
    foldPreprocessor 1 [⟨[], [some "A"]⟩, ⟨[], [some "B"]⟩] ⟨[0], [1]⟩
      = foldPreprocessor 1 [⟨[], [some "A"]⟩, ⟨[], [some "Z"]⟩] ⟨[0], [1]⟩ ∧
    evalFold ⟨fun _ _ _ => 0⟩ 1 [⟨[], [some "A"]⟩, ⟨[], [some "B"]⟩]
        [0, 1] ⟨[0], [1]⟩ =
      accuracy
        ((select [⟨[], [some "A"]⟩, ⟨[], [some "B"]⟩] (Fold.mk [0] [1]).valid).map
          (fun r =>
            Classifier.fitPredict ⟨fun _ _ _ => 0⟩
              ((select [⟨[], [some "A"]⟩, ⟨[], [some "B"]⟩]
                  (Fold.mk [0] [1]).train).map
                (transformRow
                  (foldPreprocessor 1 [⟨[], [some "A"]⟩, ⟨[], [some "B"]⟩]
                    ⟨[0], [1]⟩)))
              (select [0, 1] (Fold.mk [0] [1]).train)
              (transformRow
                (foldPreprocessor 1 [⟨[], [some "A"]⟩, ⟨[], [some "B"]⟩]
                  ⟨[0], [1]⟩) r)))
        (select [0, 1] (Fold.mk [0] [1]).valid) :=
  fold_preprocessor_fitted_on_train_only ⟨fun _ _ _ => 0⟩ 1
    [⟨[], [some "A"]⟩, ⟨[], [some "B"]⟩] [⟨[], [some "A"]⟩, ⟨[], [some "Z"]⟩]
    [0, 1] ⟨[0], [1]⟩ (by decide)

/-- **C7**: the driver reports the classifiers in the given order, and when
the shared splitter configuration yields folds, every classifier in the
sequence is scored against that one identical fold list. -/
theorem driver_shared_folds (clfs : List (String × Classifier)) (nCats : Nat)
    (rows : List Row) (labels : List ℚ) (numRows k : Nat) (shuffle : Bool)
    (seed : Nat) (folds : List Fold)
    (hok : kfoldSplit numRows k shuffle seed = .ok folds) :
    (driverRun clfs nCats rows labels numRows k shuffle seed).map Prod.fst
      = clfs.map Prod.fst ∧
    driverRun clfs nCats rows labels numRows k shuffle seed
      = clfs.map (fun p => (p.1, crossValScore p.2 nCats rows labels folds)) := by
  constructor
  · simp [driverRun]
  · simp only [driverRun, evalClassifier, hok]

/-- Witness for `driver_shared_folds` at the single constant classifier
`"stub"`, two rows, two folds. -/
theorem driver_shared_folds_witness :
    (driverRun [("stub", ⟨fun _ _ _ => 0⟩)] 0 [] [] 2 2 false 0).map Prod.fst
      = ([("stub", (⟨fun _ _ _ => 0⟩ : Classifier))]).map Prod.fst ∧
    driverRun [("stub", ⟨fun _ _ _ => 0⟩)] 0 [] [] 2 2 false 0
      = ([("stub", (⟨fun _ _ _ => 0⟩ : Classifier))]).map
          (fun p => (p.1, crossValScore p.2 0 [] [] [⟨[1], [0]⟩, ⟨[0], [1]⟩])) :=
  driver_shared_folds [("stub", ⟨fun _ _ _ => 0⟩)] 0 [] [] 2 2 false 0
    [⟨[1], [0]⟩, ⟨[0], [1]⟩] (by rfl)

/-- **C4**: determinism — the splitter and the whole driver evaluation are
pure functions of their explicit configuration (dataset, fold count,
shuffle flag, seed, classifier list): two calls with identical arguments
yield identical fold index sets and identical per-fold accuracy values. -/
theorem split_and_run_deterministic (numRows k : Nat) (shuffle : Bool)
    (seed : Nat) (numRows2 k2 : Nat) (shuffle2 : Bool) (seed2 : Nat)
    (clfs : List (String × Classifier)) (nCats : Nat) (rows : List Row)
    (labels : List ℚ) (hn : numRows = numRows2) (hk : k = k2)
    (hs : shuffle = shuffle2) (hd : seed = seed2) :
    kfoldSplit numRows k shuffle seed = kfoldSplit numRows2 k2 shuffle2 seed2 ∧
    driverRun clfs nCats rows labels numRows k shuffle seed
      = driverRun clfs nCats rows labels numRows2 k2 shuffle2 seed2 := by
  subst hn hk hs hd
  exact ⟨rfl, rfl⟩

/-- Witness for `split_and_run_deterministic` at the notebook's
configuration `k = 4`, `shuffle`, seed `1234`, on a 12-row dataset. -/
theorem split_and_run_deterministic_witness :
    kfoldSplit 12 4 true 1234 = kfoldSplit 12 4 true 1234 ∧
    driverRun [("stub", ⟨fun _ _ _ => 0⟩)] 0 [] [] 12 4 true 1234
      = driverRun [("stub", ⟨fun _ _ _ => 0⟩)] 0 [] [] 12 4 true 1234 :=
  split_and_run_deterministic 12 4 true 1234 12 4 true 1234
    [("stub", ⟨fun _ _ _ => 0⟩)] 0 [] [] rfl rfl rfl rfl

/-- **C8**: the splitter rejects its configuration with `ConfigError`
exactly when `k < 2` or `k > numRows` — in particular for `k = 1` and for
`k = numRows + 1` — and the rejection is the direct result of the
configuration check: the error value is returned in place of any fold
list, so no fold is ever produced in that case. -/
theorem kfold_split_config_error (numRows k : Nat) (shuffle : Bool)
    (seed : Nat) :
    (kfoldSplit numRows k shuffle seed = .error .invalidK
      ↔ (k < 2 ∨ numRows < k)) ∧
    kfoldSplit numRows 1 shuffle seed = .error .invalidK ∧
    kfoldSplit numRows (numRows + 1) shuffle seed = .error .invalidK := by
  refine ⟨⟨fun h => ?_, fun h => ?_⟩, ?_, ?_⟩
  · by_contra hc
    rw [kfoldSplit, if_neg hc] at h
    exact Except.noConfusion h
  · rw [kfoldSplit, if_pos h]
  · rw [kfoldSplit, if_pos (Or.inl (by omega))]
  · rw [kfoldSplit, if_pos (Or.inr (by omega))]

/-! ### Summary statistics and 4-decimal round-half-to-even reporting -/

/-- Modelled from the spec: `np.min` on a nonempty score array (the
degenerate empty case is mapped to `0`; the notebook always passes the
`k`-element score array). -/
def npMin : List ℚ → ℚ
  | [] => 0
  | x :: xs => xs.foldl min x

/-- Modelled from the spec: `np.max` on a nonempty score array. -/
def npMax : List ℚ → ℚ
  | [] => 0
  | x :: xs => xs.foldl max x

/-- Modelled from the spec: `np.mean` — the sum of the scores divided by
their number. -/
def npMean (xs : List ℚ) : ℚ := xs.sum / xs.length

/-- Modelled from the spec: the population variance (`ddof = 0`, the
`np.std` default): mean of the squared deviations from the mean. -/
def popVar (xs : List ℚ) : ℚ :=
  (xs.map (fun x => (x - npMean xs) ^ 2)).sum / xs.length

/-- Modelled from the spec: `np.std` with its default `ddof = 0` — the
nonnegative square root of the population variance. -/
noncomputable def npStd (xs : List ℚ) : ℝ := Real.sqrt ((popVar xs : ℚ) : ℝ)

/-- Round-half-to-even to the nearest integer: values whose fractional part
is below one half round down, above one half round up, and exactly one half
round to the even neighbour. -/
def halfEvenZ {α : Type} [LinearOrderedField α] [FloorRing α] (x : α) : ℤ :=
  if x - ⌊x⌋ < 1 / 2 then ⌊x⌋
  else if 1 / 2 < x - ⌊x⌋ then ⌊x⌋ + 1
  else if 2 ∣ ⌊x⌋ then ⌊x⌋ else ⌊x⌋ + 1

/-- Modelled from the spec: `round(·, 4)` on an exact rational — 4-decimal
round-half-to-even. -/
def roundQ4 (q : ℚ) : ℚ := (halfEvenZ (q * 10000) : ℚ) / 10000

/-- Modelled from the spec: `round(·, 4)` on a real value (used for the
standard deviation, which involves a square root). -/
noncomputable def roundR4 (x : ℝ) : ℝ := ((halfEvenZ (x * 10000) : ℤ) : ℝ) / 10000

/-- The reported per-classifier summary: mean, standard deviation, min and
max of the per-fold accuracy sequence, each rounded to 4 decimal places. -/
structure CVReport where
  meanScore : ℚ
  stdDev : ℝ
  minScore : ℚ
  maxScore : ℚ

/-- The notebook's reporting step: `mean_score = round(np.mean(cv_results), 4)`,
`std_dev = round(np.std(cv_results), 4)`, `min_score = round(np.min(cv_results), 4)`,
`max_score = round(np.max(cv_results), 4)`. -/
noncomputable def cvReport (xs : List ℚ) : CVReport :=
  ⟨roundQ4 (npMean xs), roundR4 (npStd xs), roundQ4 (npMin xs), roundQ4 (npMax xs)⟩

example : roundQ4 (12345 / 100000) = 1234 / 10000 := by norm_num [roundQ4, halfEvenZ]

example : roundQ4 (12355 / 100000) = 1236 / 10000 := by norm_num [roundQ4, halfEvenZ]

example : roundQ4 (123456 / 1000000) = 1235 / 10000 := by norm_num [roundQ4, halfEvenZ]

theorem halfEvenZ_bounds {α : Type} [LinearOrderedField α] [FloorRing α]
    (x : α) : ⌊x⌋ ≤ halfEvenZ x ∧ halfEvenZ x ≤ ⌊x⌋ + 1 := by
  unfold halfEvenZ
  split_ifs <;> omega

theorem halfEvenZ_nonneg {α : Type} [LinearOrderedField α] [FloorRing α]
    (x : α) (h : 0 ≤ x) : 0 ≤ halfEvenZ x := by
  have h1 : (0 : ℤ) ≤ ⌊x⌋ := Int.floor_nonneg.mpr h
  have h2 := (halfEvenZ_bounds x).1
  omega

theorem halfEvenZ_mono {α : Type} [LinearOrderedField α] [FloorRing α]
    (x y : α) (hxy : x ≤ y) : halfEvenZ x ≤ halfEvenZ y := by
  have hf : ⌊x⌋ ≤ ⌊y⌋ := Int.floor_le_floor hxy
  rcases lt_or_eq_of_le hf with hlt | heq
  · have h1 := (halfEvenZ_bounds x).2
    have h2 := (halfEvenZ_bounds y).1
    omega
  · have hyx : (⌊y⌋ : α) = (⌊x⌋ : α) := by exact_mod_cast heq.symm
    have hle : x - ⌊x⌋ ≤ y - ⌊y⌋ := by rw [hyx]; linarith
    unfold halfEvenZ
    rw [← heq]
    split_ifs <;> first | omega | linarith

theorem halfEvenZ_abs_le {α : Type} [LinearOrderedField α] [FloorRing α]
    (x : α) : |(halfEvenZ x : α) - x| ≤ 1 / 2 := by
  have hfl : (⌊x⌋ : α) ≤ x := Int.floor_le x
  have hfu : x < ⌊x⌋ + 1 := Int.lt_floor_add_one x
  unfold halfEvenZ
  split_ifs with h1 h2 h3 <;> rw [abs_le] <;> constructor <;> push_cast <;>
    linarith

theorem halfEvenZ_tie_even {α : Type} [LinearOrderedField α] [FloorRing α]
    (x : α) (h : x - ⌊x⌋ = 1 / 2) : 2 ∣ halfEvenZ x := by
  unfold halfEvenZ
  rw [h]
  have h1 : ¬ ((1 : α) / 2 < 1 / 2) := lt_irrefl _
  rw [if_neg h1, if_neg h1]
  split_ifs with h2
  · exact h2
  · omega

theorem foldl_min_le (l : List ℚ) :
    ∀ a : ℚ, l.foldl min a ≤ a ∧ ∀ x ∈ l, l.foldl min a ≤ x := by
  induction l with
  | nil => intro a; exact ⟨le_refl a, by intro x hx; cases hx⟩
  | cons y l ih =>
      intro a
      rw [List.foldl_cons]
      obtain ⟨h1, h2⟩ := ih (min a y)
      refine ⟨le_trans h1 (min_le_left a y), ?_⟩
      intro x hx
      rcases List.mem_cons.mp hx with rfl | hx
      · exact le_trans h1 (min_le_right a x)
      · exact h2 x hx

theorem foldl_min_mem (l : List ℚ) :
    ∀ a : ℚ, l.foldl min a = a ∨ l.foldl min a ∈ l := by
  induction l with
  | nil => intro a; exact Or.inl rfl
  | cons y l ih =>
      intro a
      rw [List.foldl_cons]
      rcases ih (min a y) with h | h
      · rcases min_choice a y with hm | hm
        · exact Or.inl (h.trans hm)
        · exact Or.inr (by rw [h, hm]; exact List.mem_cons_self y l)
      · exact Or.inr (List.mem_cons_of_mem y h)

theorem foldl_max_le (l : List ℚ) :
    ∀ a : ℚ, a ≤ l.foldl max a ∧ ∀ x ∈ l, x ≤ l.foldl max a := by
  induction l with
  | nil => intro a; exact ⟨le_refl a, by intro x hx; cases hx⟩
  | cons y l ih =>
      intro a
      rw [List.foldl_cons]
      obtain ⟨h1, h2⟩ := ih (max a y)
      refine ⟨le_trans (le_max_left a y) h1, ?_⟩
      intro x hx
      rcases List.mem_cons.mp hx with rfl | hx
      · exact le_trans (le_max_right a x) h1
      · exact h2 x hx

theorem foldl_max_mem (l : List ℚ) :
    ∀ a : ℚ, l.foldl max a = a ∨ l.foldl max a ∈ l := by
  induction l with
  | nil => intro a; exact Or.inl rfl
  | cons y l ih =>
      intro a
      rw [List.foldl_cons]
      rcases ih (max a y) with h | h
      · rcases max_choice a y with hm | hm
        · exact Or.inl (h.trans hm)
        · exact Or.inr (by rw [h, hm]; exact List.mem_cons_self y l)
      · exact Or.inr (List.mem_cons_of_mem y h)

theorem npMin_spec (xs : List ℚ) (h : xs ≠ []) :
    npMin xs ∈ xs ∧ ∀ x ∈ xs, npMin xs ≤ x := by
  cases xs with
  | nil => exact absurd rfl h
  | cons x l =>
      constructor
      · rcases foldl_min_mem l x with hm | hm
        · rw [npMin, hm]; exact List.mem_cons_self x l
        · exact List.mem_cons_of_mem x (by rw [npMin]; exact hm)
      · intro y hy
        rcases List.mem_cons.mp hy with rfl | hy
        · exact (foldl_min_le l y).1
        · exact (foldl_min_le l x).2 y hy

theorem npMax_spec (xs : List ℚ) (h : xs ≠ []) :
    npMax xs ∈ xs ∧ ∀ x ∈ xs, x ≤ npMax xs := by
  cases xs with
  | nil => exact absurd rfl h
  | cons x l =>
      constructor
      · rcases foldl_max_mem l x with hm | hm
        · rw [npMax, hm]; exact List.mem_cons_self x l
        · exact List.mem_cons_of_mem x (by rw [npMax]; exact hm)
      · intro y hy
        rcases List.mem_cons.mp hy with rfl | hy
        · exact (foldl_max_le l y).1
        · exact (foldl_max_le l x).2 y hy

theorem mul_length_le_sum (xs : List ℚ) (b : ℚ) (h : ∀ x ∈ xs, b ≤ x) :
    b * xs.length ≤ xs.sum := by
  induction xs with
  | nil => simp
  | cons x xs ih =>
      have hx : b ≤ x := h x (List.mem_cons_self x xs)
      have hr := ih (fun y hy => h y (List.mem_cons_of_mem x hy))
      rw [List.sum_cons, List.length_cons]
      push_cast
      linarith

theorem sum_le_mul_length (xs : List ℚ) (b : ℚ) (h : ∀ x ∈ xs, x ≤ b) :
    xs.sum ≤ b * xs.length := by
  induction xs with
  | nil => simp
  | cons x xs ih =>
      have hx : x ≤ b := h x (List.mem_cons_self x xs)
      have hr := ih (fun y hy => h y (List.mem_cons_of_mem x hy))
      rw [List.sum_cons, List.length_cons]
      push_cast
      linarith

theorem length_pos_q (xs : List ℚ) (h : xs ≠ []) : (0 : ℚ) < xs.length := by
  have := List.length_pos.mpr h
  exact_mod_cast this

theorem npMin_le_npMean (xs : List ℚ) (h : xs ≠ []) : npMin xs ≤ npMean xs := by
  rw [npMean, le_div_iff₀ (length_pos_q xs h)]
  exact mul_length_le_sum xs (npMin xs) (npMin_spec xs h).2

theorem npMean_le_npMax (xs : List ℚ) (h : xs ≠ []) : npMean xs ≤ npMax xs := by
  rw [npMean, div_le_iff₀ (length_pos_q xs h)]
  exact sum_le_mul_length xs (npMax xs) (npMax_spec xs h).2

theorem popVar_nonneg (xs : List ℚ) : 0 ≤ popVar xs := by
  rw [popVar]
  apply div_nonneg
  · apply List.sum_nonneg
    intro y hy
    rcases List.mem_map.mp hy with ⟨x, _, rfl⟩
    exact sq_nonneg _
  · exact_mod_cast Nat.zero_le xs.length

theorem npStd_nonneg (xs : List ℚ) : 0 ≤ npStd xs := Real.sqrt_nonneg _

theorem npStd_sq (xs : List ℚ) : npStd xs ^ 2 = ((popVar xs : ℚ) : ℝ) := by
  rw [npStd, Real.sq_sqrt]
  exact_mod_cast popVar_nonneg xs

theorem roundQ4_mono (q r : ℚ) (h : q ≤ r) : roundQ4 q ≤ roundQ4 r := by
  rw [roundQ4, roundQ4]
  have h2 : halfEvenZ (q * 10000) ≤ halfEvenZ (r * 10000) :=
    halfEvenZ_mono _ _ (by linarith)
  have h3 : ((halfEvenZ (q * 10000) : ℚ)) ≤ (halfEvenZ (r * 10000) : ℚ) := by
    exact_mod_cast h2
  linarith

theorem roundQ4_abs_le (q : ℚ) : |roundQ4 q - q| ≤ 1 / 20000 := by
  have h := halfEvenZ_abs_le (q * 10000)
  rw [roundQ4]
  have heq : (halfEvenZ (q * 10000) : ℚ) / 10000 - q
      = ((halfEvenZ (q * 10000) : ℚ) - q * 10000) / 10000 := by ring
  rw [heq, abs_div]
  have habs : |(10000 : ℚ)| = 10000 := by norm_num
  rw [habs]
  linarith

theorem roundR4_nonneg (x : ℝ) (h : 0 ≤ x) : 0 ≤ roundR4 x := by
  rw [roundR4]
  apply div_nonneg _ (by norm_num)
  exact_mod_cast halfEvenZ_nonneg (x * 10000) (by positivity)

theorem sum_indicator_eq_countP (l : List (ℚ × ℚ)) :
    (l.map (fun p => if p.1 = p.2 then (1 : ℚ) else 0)).sum
      = (l.countP (fun p => decide (p.1 = p.2)) : ℚ) := by
  induction l with
  | nil => simp
  | cons p l ih =>
      rw [List.map_cons, List.sum_cons, List.countP_cons, ih]
      by_cases h : p.1 = p.2
      · simp [h]; ring
      · simp [h]

theorem accuracy_eq_fraction (preds truth : List ℚ) :
    accuracy preds truth
      = ((preds.zip truth).countP (fun p => decide (p.1 = p.2)) : ℚ)
          / truth.length := by
  rw [accuracy, sum_indicator_eq_countP]

/-- **C5**: the evaluator's per-fold score is the fraction of validation
rows whose predicted label equals the true label, and the reported summary
is the 4-decimal rounding of the mean, population standard deviation
(`ddof = 0`: the nonnegative square root of the mean squared deviation),
minimum and maximum of the per-fold accuracy sequence, where the rounding
maps to the nearest multiple of `1/10000` and resolves exact ties to the
even multiple. -/
theorem evaluation_accuracy_and_summary (clf : Classifier) (nCats : Nat)
    (rows : List Row) (labels : List ℚ) (folds : List Fold) (f : Fold)
    (xs : List ℚ) (hxs : xs = crossValScore clf nCats rows labels folds)
    (hfolds : folds ≠ []) :
    (evalFold clf nCats rows labels f
      = ((((select rows f.valid).map (fun r =>
            clf.fitPredict
              ((select rows f.train).map
                (transformRow (foldPreprocessor nCats rows f)))
              (select labels f.train)
              (transformRow (foldPreprocessor nCats rows f) r))).zip
          (select labels f.valid)).countP (fun p => decide (p.1 = p.2)) : ℚ)
          / (select labels f.valid).length) ∧
    cvReport xs = ⟨roundQ4 (npMean xs), roundR4 (npStd xs),
      roundQ4 (npMin xs), roundQ4 (npMax xs)⟩ ∧
    npMean xs * xs.length = xs.sum ∧
    (npMin xs ∈ xs ∧ ∀ x ∈ xs, npMin xs ≤ x) ∧
    (npMax xs ∈ xs ∧ ∀ x ∈ xs, x ≤ npMax xs) ∧
    0 ≤ npStd xs ∧ npStd xs ^ 2 = ((popVar xs : ℚ) : ℝ) ∧
    ∀ q : ℚ, (∃ z : ℤ, roundQ4 q = (z : ℚ) / 10000) ∧
      |roundQ4 q - q| ≤ 1 / 20000 ∧
      (q * 10000 - ⌊q * 10000⌋ = 1 / 2 → 2 ∣ halfEvenZ (q * 10000)) := by
  have hne : xs ≠ [] := by
    rw [hxs, crossValScore]
    intro hc
    exact hfolds (List.map_eq_nil_iff.mp hc)
  refine ⟨accuracy_eq_fraction _ _, rfl, ?_, npMin_spec xs hne, npMax_spec xs hne,
    npStd_nonneg xs, npStd_sq xs, fun q => ⟨⟨halfEvenZ (q * 10000), rfl⟩,
      roundQ4_abs_le q, fun ht => halfEvenZ_tie_even _ ht⟩⟩
  rw [npMean, div_mul_cancel₀]
  exact ne_of_gt (length_pos_q xs hne)

/-- Witness for `evaluation_accuracy_and_summary`: the constant-zero stub
classifier on a one-row dataset with the single fold that validates on
row 0. -/
theorem evaluation_accuracy_and_summary_witness :
    (evalFold ⟨fun _ _ _ => 0⟩ 0 [⟨[], []⟩] [1] ⟨[], [0]⟩
      = ((((select [⟨[], []⟩] (Fold.mk [] [0]).valid).map (fun r =>
            Classifier.fitPredict ⟨fun _ _ _ => 0⟩
              ((select [⟨[], []⟩] (Fold.mk [] [0]).train).map
                (transformRow (foldPreprocessor 0 [⟨[], []⟩] ⟨[], [0]⟩)))
              (select [1] (Fold.mk [] [0]).train)
              (transformRow (foldPreprocessor 0 [⟨[], []⟩] ⟨[], [0]⟩) r))).zip
          (select [1] (Fold.mk [] [0]).valid)).countP
            (fun p => decide (p.1 = p.2)) : ℚ)
          / (select [1] (Fold.mk [] [0]).valid).length) ∧
    cvReport (crossValScore ⟨fun _ _ _ => 0⟩ 0 [⟨[], []⟩] [1] [⟨[], [0]⟩])
      = ⟨roundQ4 (npMean (crossValScore ⟨fun _ _ _ => 0⟩ 0 [⟨[], []⟩] [1]
            [⟨[], [0]⟩])),
         roundR4 (npStd (crossValScore ⟨fun _ _ _ => 0⟩ 0 [⟨[], []⟩] [1]
            [⟨[], [0]⟩])),
         roundQ4 (npMin (crossValScore ⟨fun _ _ _ => 0⟩ 0 [⟨[], []⟩] [1]
            [⟨[], [0]⟩])),
         roundQ4 (npMax (crossValScore ⟨fun _ _ _ => 0⟩ 0 [⟨[], []⟩] [1]
            [⟨[], [0]⟩]))⟩ ∧
    npMean (crossValScore ⟨fun _ _ _ => 0⟩ 0 [⟨[], []⟩] [1] [⟨[], [0]⟩])
        * (crossValScore ⟨fun _ _ _ => 0⟩ 0 [⟨[], []⟩] [1] [⟨[], [0]⟩]).length
      = (crossValScore ⟨fun _ _ _ => 0⟩ 0 [⟨[], []⟩] [1] [⟨[], [0]⟩]).sum ∧
    (npMin (crossValScore ⟨fun _ _ _ => 0⟩ 0 [⟨[], []⟩] [1] [⟨[], [0]⟩])
        ∈ crossValScore ⟨fun _ _ _ => 0⟩ 0 [⟨[], []⟩] [1] [⟨[], [0]⟩] ∧
      ∀ x ∈ crossValScore ⟨fun _ _ _ => 0⟩ 0 [⟨[], []⟩] [1] [⟨[], [0]⟩],
        npMin (crossValScore ⟨fun _ _ _ => 0⟩ 0 [⟨[], []⟩] [1] [⟨[], [0]⟩]) ≤ x) ∧
    (npMax (crossValScore ⟨fun _ _ _ => 0⟩ 0 [⟨[], []⟩] [1] [⟨[], [0]⟩])
        ∈ crossValScore ⟨fun _ _ _ => 0⟩ 0 [⟨[], []⟩] [1] [⟨[], [0]⟩] ∧
      ∀ x ∈ crossValScore ⟨fun _ _ _ => 0⟩ 0 [⟨[], []⟩] [1] [⟨[], [0]⟩],
        x ≤ npMax (crossValScore ⟨fun _ _ _ => 0⟩ 0 [⟨[], []⟩] [1] [⟨[], [0]⟩])) ∧
    0 ≤ npStd (crossValScore ⟨fun _ _ _ => 0⟩ 0 [⟨[], []⟩] [1] [⟨[], [0]⟩]) ∧
    npStd (crossValScore ⟨fun _ _ _ => 0⟩ 0 [⟨[], []⟩] [1] [⟨[], [0]⟩]) ^ 2
      = ((popVar (crossValScore ⟨fun _ _ _ => 0⟩ 0 [⟨[], []⟩] [1]
          [⟨[], [0]⟩]) : ℚ) : ℝ) ∧
    ∀ q : ℚ, (∃ z : ℤ, roundQ4 q = (z : ℚ) / 10000) ∧
      |roundQ4 q - q| ≤ 1 / 20000 ∧
      (q * 10000 - ⌊q * 10000⌋ = 1 / 2 → 2 ∣ halfEvenZ (q * 10000)) :=
  evaluation_accuracy_and_summary ⟨fun _ _ _ => 0⟩ 0 [⟨[], []⟩] [1]
    [⟨[], [0]⟩] ⟨[], [0]⟩
    (crossValScore ⟨fun _ _ _ => 0⟩ 0 [⟨[], []⟩] [1] [⟨[], [0]⟩]) rfl
    (by simp)

/-- **C9**: on every nonempty per-fold accuracy sequence the summary
satisfies `min ≤ mean ≤ max` and `std ≥ 0`, and the same inequalities hold
between the 4-decimal-rounded values of the report (rounding is monotone
and preserves nonnegativity). -/
theorem summary_statistics_ordered (xs : List ℚ) (hxs : xs ≠ []) :
    npMin xs ≤ npMean xs ∧ npMean xs ≤ npMax xs ∧ 0 ≤ npStd xs ∧
    (cvReport xs).minScore ≤ (cvReport xs).meanScore ∧
    (cvReport xs).meanScore ≤ (cvReport xs).maxScore ∧
    0 ≤ (cvReport xs).stdDev := by
  have h1 := npMin_le_npMean xs hxs
  have h2 := npMean_le_npMax xs hxs
  exact ⟨h1, h2, npStd_nonneg xs, roundQ4_mono _ _ h1, roundQ4_mono _ _ h2,
    roundR4_nonneg _ (npStd_nonneg xs)⟩

/-- Witness for `summary_statistics_ordered` at the concrete accuracy
sequence `[1/2, 1]`. -/
theorem summary_statistics_ordered_witness :
    npMin [1 / 2, 1] ≤ npMean [1 / 2, 1] ∧
    npMean [1 / 2, 1] ≤ npMax [1 / 2, 1] ∧
    0 ≤ npStd [1 / 2, 1] ∧
    (cvReport [1 / 2, 1]).minScore ≤ (cvReport [1 / 2, 1]).meanScore ∧
    (cvReport [1 / 2, 1]).meanScore ≤ (cvReport [1 / 2, 1]).maxScore ∧
    0 ≤ (cvReport [1 / 2, 1]).stdDev :=
  summary_statistics_ordered [1 / 2, 1] (by simp)

/-! ### Feature schema (columns fed to the classifiers) -/

/-- A raw cell of the loaded dataset: a number, a string, or the missing
marker. -/
inductive RawValue where
  | num (q : ℚ)
  | str (s : String)
  | missing
deriving DecidableEq, Repr

/-- The notebook's numeric feature columns (`features_num`). -/
def features_num : List String :=
  ["lead_time", "arrival_date_week_number", "arrival_date_day_of_month",
   "stays_in_weekend_nights", "stays_in_week_nights", "adults", "children",
   "babies", "is_repeated_guest", "previous_cancellations",
   "previous_bookings_not_canceled", "agent", "company",
   "required_car_parking_spaces", "total_of_special_requests", "adr"]

/-- The notebook's categorical feature columns (`features_cat`). -/
def features_cat : List String :=
  ["hotel", "arrival_date_month", "meal", "market_segment",
   "distribution_channel", "reserved_room_type", "deposit_type",
   "customer_type"]

/-- The notebook's feature list: `features = features_num + features_cat`. -/
def features : List String := features_num ++ features_cat

/-- The label column the notebook predicts: `y = hotel_bookings["is_canceled"]`. -/
def label_column : String := "is_canceled"

/-- A numeric feature cell extracted from a raw cell (non-numeric content
counts as missing). -/
def toNumCell : RawValue → Option ℚ
  | .num q => some q
  | .str _ => none
  | .missing => none

/-- A categorical feature cell extracted from a raw cell (non-string
content counts as missing). -/
def toCatCell : RawValue → Option String
  | .str s => some s
  | .num _ => none
  | .missing => none

/-- The notebook's `X = hotel_bookings[features]` restricted to one record:
the feature row is built by reading exactly the declared feature columns of
the raw record. -/
def buildRow (record : String → RawValue) : Row :=
  ⟨features_num.map (fun c => toNumCell (record c)),
   features_cat.map (fun c => toCatCell (record c))⟩

/-- **C10**: the feature matrix is built from the 16 declared numeric
columns and the 8 declared categorical columns only; the two sets are
disjoint and contain neither the label `is_canceled` nor the
outcome-revealing `reservation_status` and `reservation_status_date`; and
row construction reads no column outside `features` — two records that
agree on every feature column produce identical feature rows, whatever
their label and status columns hold. -/
theorem feature_schema_excludes_label (record record2 : String → RawValue)
    (h : ∀ c ∈ features, record c = record2 c) :
    features_num.length = 16 ∧ features_cat.length = 8 ∧
    (∀ c ∈ features_num, c ∉ features_cat) ∧
    label_column ∉ features ∧
    "reservation_status" ∉ features ∧
    "reservation_status_date" ∉ features ∧
    buildRow record = buildRow record2 := by
  refine ⟨rfl, rfl, by decide, by decide, by decide, by decide, ?_⟩
  rw [buildRow, buildRow]
  have h1 : features_num.map (fun c => toNumCell (record c))
      = features_num.map (fun c => toNumCell (record2 c)) :=
    List.map_congr_left (fun c hc => by
      rw [h c (List.mem_append.mpr (Or.inl hc))])
  have h2 : features_cat.map (fun c => toCatCell (record c))
      = features_cat.map (fun c => toCatCell (record2 c)) :=
    List.map_congr_left (fun c hc => by
      rw [h c (List.mem_append.mpr (Or.inr hc))])
  rw [h1, h2]

/-- Witness for `feature_schema_excludes_label`: two records that agree on
every feature column but carry different labels build the same feature
row. -/
theorem feature_schema_excludes_label_witness :
    features_num.length = 16 ∧ features_cat.length = 8 ∧
    (∀ c ∈ features_num, c ∉ features_cat) ∧
    label_column ∉ features ∧
    "reservation_status" ∉ features ∧
    "reservation_status_date" ∉ features ∧
    buildRow (fun c => if c = "is_canceled" then .num 1 else .missing)
      = buildRow (fun c => if c = "is_canceled" then .num 0 else .missing) :=
  feature_schema_excludes_label
    (fun c => if c = "is_canceled" then .num 1 else .missing)
    (fun c => if c = "is_canceled" then .num 0 else .missing)
    (by decide)
